import Mathlib

/-!
Shallow embedding of the WebAssembly-to-CLIF code translator found in
cranelift/wasm/src/code_translator.rs, restricted to the parts needed to
settle the frozen claims: SIMD canonicalisation, the structured control
flow arms (Br, BrTable, End on the unreachable path), the MemRef lowering
(MemrefConst, MemrefNarrow, MemrefMSStore/MemrefMSLoad metadata packing),
and the address preparers (prepare_ms_addr, prepare_atomic_addr).

Machine integers are modelled as Nat with explicit reductions modulo
2 ^ 32 or 2 ^ 64 where the emitted CLIF arithmetic wraps.  The value and
control stacks are Lean lists with the top at the end, mirroring the
Vec-based stacks of the translation state.
-/

/-- CLIF value types relevant to the translator: the scalar types and the
eight 128-bit vector shapes.  I8X16 is the canonical vector type. -/
inductive IRType where
  | I8 | I16 | I32 | I64 | F32 | F64
  | I8X16 | I16X8 | I32X4 | I64X2 | F32X4 | F64X2
deriving DecidableEq, Repr, Inhabited

/-- An IR value handle.  A value is either an original value with an id and
a type, or the result of a no-op bitcast of another value.  This mirrors
how the translator creates fresh values only via builder instructions. -/
inductive Value where
  | val (id : Nat) (ty : IRType)
  | bitcast (ty : IRType) (of : Value)
deriving DecidableEq, Repr, Inhabited

/-- The IR type of a value, as recorded in the data-flow graph. -/
def Value.ty : Value → IRType
  | .val _ t => t
  | .bitcast t _ => t

/-- Trap codes used by the translated fragments. -/
inductive TrapCode where
  | HeapOutOfBounds
  | IntegerOverflow
  | HeapMisaligned
  | UnreachableCodeReached
deriving DecidableEq, Repr

/-- The emitted CLIF instructions that the claims talk about.  Numeric
claims use the evaluated forms (trapnz with an evaluated condition, a
bounds-check marker); structural claims use jump and brTable. -/
inductive Inst where
  | bitcastTo (t : IRType) (of : Value)
  | jump (destination : Nat) (args : List Value)
  | brTable (index : Value) (defaultBlock : Nat) (entries : List Nat) (args : List Value)
  | trap (code : TrapCode)
  | trapnz (cond : Bool) (code : TrapCode)
  | boundsCheck (v : Nat)
deriving DecidableEq, Repr

/-- Embedding of is_non_canonical_v128: the 128-bit vector shapes other
than I8X16. -/
def is_non_canonical_v128 : IRType → Bool
  | .I64X2 | .I32X4 | .I16X8 | .F32X4 | .F64X2 => true
  | _ => false

/-- Result of canonicalise_v128_values: the returned slice, the bitcast
instructions that were emitted, and whether the temporary vector was
used (the allocation taken when some value needed a cast). -/
structure CanonResult where
  values : List Value
  emitted : List Inst
  allocated : Bool
deriving DecidableEq, Repr

/-- Embedding of canonicalise_v128_values: pre-scan the values for a
non-canonical 128-bit type; when none is found return the input slice
itself, otherwise build a new slice in which exactly the non-canonical
values are replaced by bitcasts to I8X16. -/
def canonicalise_v128_values (values : List Value) : CanonResult :=
  let any_non_canonical := values.any (fun v => is_non_canonical_v128 v.ty)
  if !any_non_canonical then
    { values := values, emitted := [], allocated := false }
  else
    { values := values.map (fun v =>
        if is_non_canonical_v128 v.ty then Value.bitcast IRType.I8X16 v else v),
      emitted := (values.filter (fun v => is_non_canonical_v128 v.ty)).map
        (fun v => Inst.bitcastTo IRType.I8X16 v),
      allocated := true }

/-- Embedding of canonicalise_then_jump: a jump whose arguments have been
canonicalised. -/
def canonicalise_then_jump (destination : Nat) (params : List Value) : Inst :=
  Inst.jump destination (canonicalise_v128_values params).values

/-- Modelled from the spec: the else data of an If control frame, either a
pending branch instruction (NoElse) or a pre-allocated else block.  The
ControlStackFrame type lives in the state module, which is not among the
translated sources; its shape follows the data model of the spec. -/
inductive ElseData where
  | NoElse (branch_inst : Nat)
  | WithElse (else_block : Nat)
deriving DecidableEq, Repr, Inhabited

/-- Modelled from the spec: a structured-control frame.  Blocks are
identified by Nat handles.  Every variant records the block following the
construct, its arities, the value-stack height at entry and whether some
branch targeted its exit block; Loop additionally records its header
block and If its else data, head reachability and the reachability at the
end of the consequent. -/
inductive ControlStackFrame where
  | Block (following : Nat) (num_params num_returns : Nat)
      (original_stack_size : Nat) (exit_is_branched_to : Bool)
  | Loop (header : Nat) (following : Nat) (num_params num_returns : Nat)
      (original_stack_size : Nat) (exit_is_branched_to : Bool)
  | If (following : Nat) (else_data : ElseData) (num_params num_returns : Nat)
      (original_stack_size : Nat) (exit_is_branched_to : Bool)
      (head_is_reachable : Bool) (consequent_ends_reachable : Option Bool)
deriving DecidableEq, Repr, Inhabited

/-- Modelled from the spec: the block following the construct. -/
def ControlStackFrame.following_code : ControlStackFrame → Nat
  | .Block f _ _ _ _ => f
  | .Loop _ f _ _ _ _ => f
  | .If f _ _ _ _ _ _ _ => f

/-- Modelled from the spec: the destination of a branch to this frame, the
loop header for loops and the following block otherwise. -/
def ControlStackFrame.br_destination : ControlStackFrame → Nat
  | .Loop h _ _ _ _ _ => h
  | f => f.following_code

/-- Modelled from the spec: whether the frame is a Loop frame. -/
def ControlStackFrame.is_loop : ControlStackFrame → Bool
  | .Loop _ _ _ _ _ _ => true
  | _ => false

/-- Modelled from the spec: the parameter arity of the frame. -/
def ControlStackFrame.num_param_values : ControlStackFrame → Nat
  | .Block _ p _ _ _ => p
  | .Loop _ _ p _ _ _ => p
  | .If _ _ p _ _ _ _ _ => p

/-- Modelled from the spec: the result arity of the frame. -/
def ControlStackFrame.num_return_values : ControlStackFrame → Nat
  | .Block _ _ r _ _ => r
  | .Loop _ _ _ r _ _ => r
  | .If _ _ _ r _ _ _ _ => r

/-- Modelled from the spec: the value-stack height at entry to the frame. -/
def ControlStackFrame.original_stack_size : ControlStackFrame → Nat
  | .Block _ _ _ s _ => s
  | .Loop _ _ _ _ s _ => s
  | .If _ _ _ _ s _ _ _ => s

/-- Modelled from the spec: whether some branch targeted the exit block. -/
def ControlStackFrame.exit_is_branched_to : ControlStackFrame → Bool
  | .Block _ _ _ _ b => b
  | .Loop _ _ _ _ _ b => b
  | .If _ _ _ _ _ b _ _ => b

/-- Modelled from the spec: mark the frame as branched-to-exit. -/
def ControlStackFrame.set_branched_to_exit : ControlStackFrame → ControlStackFrame
  | .Block f p r s _ => .Block f p r s true
  | .Loop h f p r s _ => .Loop h f p r s true
  | .If f e p r s _ hr c => .If f e p r s true hr c

/-- The translation state: the value stack, the control stack (frame 0 at
the head of the list, top of the stack at the end) and the reachability
flag. -/
structure FuncTranslationState where
  stack : List Value
  control_stack : List ControlStackFrame
  reachable : Bool
deriving DecidableEq, Repr

/-- Modelled from the spec: peekn borrows the top k values of the stack. -/
def peekn (stack : List Value) (k : Nat) : List Value :=
  stack.drop (stack.length - k)

/-- Modelled from the spec: popn drops the top k values of the stack. -/
def popn (stack : List Value) (k : Nat) : List Value :=
  stack.take (stack.length - k)

/-- Modelled from the spec: truncate the value stack to the original stack
height recorded in the frame. -/
def truncate_value_stack_to_original_size
    (frame : ControlStackFrame) (stack : List Value) : List Value :=
  stack.take frame.original_stack_size

/-- The frame addressed by a relative depth: index len - 1 - depth. -/
def frame_at (cs : List ControlStackFrame) (depth : Nat) : ControlStackFrame :=
  cs.getD (cs.length - 1 - depth) default

/-- Mark the frame addressed by a relative depth as branched-to-exit. -/
def set_branched_at (cs : List ControlStackFrame) (depth : Nat) :
    List ControlStackFrame :=
  cs.set (cs.length - 1 - depth) (frame_at cs depth).set_branched_to_exit

/-- The branch destination of the frame addressed by a relative depth. -/
def frame_dest_at (cs : List ControlStackFrame) (depth : Nat) : Nat :=
  (frame_at cs depth).br_destination

/-- Result of the End arm of translate_unreachable_operator: the updated
state, the blocks sealed, and the block switched to when reachability was
restored. -/
structure UnreachableEndResult where
  state : FuncTranslationState
  sealed_blocks : List Nat
  switched_to : Option Nat
deriving DecidableEq, Repr

/-- Embedding of the End arm of translate_unreachable_operator: pop the
frame, truncate the value stack to its original height, seal the loop
header for Loop frames, compute whether the following block is reachable
anyway (If frames, from head reachability and the recorded consequent
reachability), and when the exit was branched to or reachable anyway,
switch to and seal the following block, push its parameters and restore
reachability. -/
def translate_unreachable_end (st : FuncTranslationState)
    (block_params : Nat → List Value) : UnreachableEndResult :=
  let frame := (st.control_stack.getLast?).getD default
  let control_stack := st.control_stack.dropLast
  let stack := truncate_value_stack_to_original_size frame st.stack
  let sealed_header : List Nat :=
    match frame with
    | .Loop header _ _ _ _ _ => [header]
    | _ => []
  let reachable_anyway : Bool :=
    match frame with
    | .Loop _ _ _ _ _ _ => false
    | .If _ _ _ _ _ _ head_is_reachable none => head_is_reachable
    | .If _ _ _ _ _ _ head_is_reachable (some c) => head_is_reachable && c
    | _ => false
  if frame.exit_is_branched_to || reachable_anyway then
    { state :=
        { stack := stack ++ block_params frame.following_code,
          control_stack := control_stack,
          reachable := true },
      sealed_blocks := sealed_header ++ [frame.following_code],
      switched_to := some frame.following_code }
  else
    { state :=
        { stack := stack,
          control_stack := control_stack,
          reachable := st.reachable },
      sealed_blocks := sealed_header,
      switched_to := none }

/-- Result of the Br arm: the updated state and the emitted jump. -/
structure BrResult where
  state : FuncTranslationState
  emitted : Inst
deriving DecidableEq, Repr

/-- Embedding of the Br arm of translate_operator: address the frame at
len - 1 - depth, mark it branched-to-exit, choose the argument count from
the parameter arity for loops and the result arity otherwise, emit a
canonicalised jump to the branch destination with the top values, pop
them and become unreachable. -/
def translate_br (relative_depth : Nat) (st : FuncTranslationState) : BrResult :=
  let frame := frame_at st.control_stack relative_depth
  let control_stack := set_branched_at st.control_stack relative_depth
  let return_count :=
    if frame.is_loop then frame.num_param_values else frame.num_return_values
  let destination_args := peekn st.stack return_count
  { state :=
      { stack := popn st.stack return_count,
        control_stack := control_stack,
        reachable := false },
    emitted := canonicalise_then_jump frame.br_destination destination_args }

/-- Embedding of the min-depth scan of the BrTable arm: start from the
default depth and keep the smaller depth over all table entries. -/
def br_table_min_depth (targets : List Nat) (default_depth : Nat) : Nat :=
  targets.foldl (fun m d => if d < m then d else m) default_depth

/-- Embedding of the trampoline-allocation loop of the BrTable arm.  The
association list plays both roles of the hash map (lookup by depth) and of
dest_block_sequence (first-occurrence order); a fresh block id is taken
from the counter at each first occurrence of a depth. -/
def alloc_trampolines :
    List Nat → List (Nat × Nat) → Nat → (List (Nat × Nat) × Nat)
  | [], seq, next => (seq, next)
  | d :: rest, seq, next =>
    match seq.lookup d with
    | some _ => alloc_trampolines rest seq next
    | none => alloc_trampolines rest (seq ++ [(d, next)]) (next + 1)

/-- Result of the BrTable arm: the updated state, the emitted br_table
instruction, and one record per trampoline block giving its depth, its
block id and the single jump emitted inside it (empty when the br_table
targeted the destinations directly). -/
structure BrTableResult where
  state : FuncTranslationState
  br_table : Inst
  trampolines : List (Nat × Nat × Inst)
deriving DecidableEq, Repr

/-- The body of the loop over the table entries in the no-jump-argument
branch of the BrTable arm: mark the frame at the depth as
branched-to-exit and record its branch destination as a table entry. -/
def br_table_zero_step (p : List ControlStackFrame × List Nat) (d : Nat) :
    List ControlStackFrame × List Nat :=
  let cs := set_branched_at p.1 d
  (cs, p.2 ++ [frame_dest_at cs d])

/-- The body of the loop over dest_block_sequence in the jump-argument
branch of the BrTable arm: mark the frame at the depth as
branched-to-exit and emit, inside the trampoline block, a single
canonicalised jump to the true destination carrying the arguments. -/
def br_table_tramp_step (stack1 : List Value) (return_count : Nat)
    (p : List ControlStackFrame × List (Nat × Nat × Inst)) (db : Nat × Nat) :
    List ControlStackFrame × List (Nat × Nat × Inst) :=
  let cs := set_branched_at p.1 db.1
  let j := canonicalise_then_jump (frame_dest_at cs db.1)
    (peekn stack1 return_count)
  (cs, p.2 ++ [(db.1, db.2, j)])

/-- The jump-argument count of a BrTable: taken from the frame at the
minimum depth over the table entries and the default, using the parameter
arity for loops and the result arity otherwise. -/
def br_table_args_count (targets : List Nat) (default_depth : Nat)
    (st : FuncTranslationState) : Nat :=
  let f := frame_at st.control_stack (br_table_min_depth targets default_depth)
  if f.is_loop then f.num_param_values else f.num_return_values

/-- Embedding of the BrTable arm of translate_operator.  The argument
count is taken from the frame at the minimum depth.  When it is zero the
br_table targets the branch destinations directly; otherwise one
trampoline block is created per distinct depth (deduplicated through the
map), the br_table targets the trampolines, and each trampoline emits a
single canonicalised jump to the true destination with the arguments.
The index value is popped first, the arguments afterwards, and the code
becomes unreachable. -/
def translate_br_table (targets : List Nat) (default_depth : Nat)
    (st : FuncTranslationState) (first_block : Nat) : BrTableResult :=
  let jump_args_count := br_table_args_count targets default_depth st
  let val := (st.stack.getLast?).getD default
  let stack1 := st.stack.dropLast
  if jump_args_count = 0 then
    let folded := targets.foldl br_table_zero_step (st.control_stack, [])
    let cs := set_branched_at folded.1 default_depth
    let default_block := frame_dest_at cs default_depth
    { state := { stack := stack1, control_stack := cs, reachable := false },
      br_table := Inst.brTable val default_block folded.2 [],
      trampolines := [] }
  else
    let return_count := jump_args_count
    let alloc := alloc_trampolines (targets ++ [default_depth]) [] first_block
    let seq := alloc.1
    let entries := targets.map (fun d => ((seq.lookup d).getD 0))
    let default_block := (seq.lookup default_depth).getD 0
    let folded := seq.foldl (br_table_tramp_step stack1 return_count)
      (st.control_stack, [])
    { state :=
        { stack := popn stack1 return_count,
          control_stack := folded.1,
          reachable := false },
      br_table := Inst.brTable val default_block entries [],
      trampolines := folded.2 }

/-- Result of a simple operator arm: the updated state and the emitted
instructions. -/
structure OpResult where
  state : FuncTranslationState
  emitted : List Inst
deriving DecidableEq, Repr

/-- Embedding of the MemrefConst arm of translate_operator: a memref
constant may not appear inside a function body, so a trap instruction is
emitted; nothing else in the state is touched. -/
def translate_memref_const (st : FuncTranslationState) : OpResult :=
  { state := st, emitted := [Inst.trap TrapCode.UnreachableCodeReached] }

/-- Embedding of the Unreachable arm of translate_operator: emit a trap
and clear the reachability flag. -/
def translate_unreachable_op (st : FuncTranslationState) : OpResult :=
  { state := { st with reachable := false },
    emitted := [Inst.trap TrapCode.UnreachableCodeReached] }

/-- The four lanes of a memref value, each a 32-bit natural: lane 0 the
virtual address, lane 1 the base, lane 2 the size, lane 3 the attribute
bits. -/
structure MemRefVal where
  addr : Nat
  base : Nat
  size : Nat
  attr : Nat
deriving DecidableEq, Repr

/-- Result of evaluating the fields computed by prepare_ms_addr on
concrete lane values, together with the emitted checks. -/
structure MsAddrCheck where
  has_metadata : Bool
  addr_base : Nat
  addr_upper : Nat
  upper : Nat
  trap : Bool
  emitted : List Inst
deriving DecidableEq, Repr

/-- Embedding of the check portion of prepare_ms_addr, evaluated on the
extracted lanes of the memref: has_metadata from attr bit 0x20, the
wrapping offset fold into addr_base (only when the static offset is
non-zero), the wrapping adds for addr_upper and upper, the two unsigned
comparisons, and the conditional HeapOutOfBounds trap followed by the
host-memory bounds-only check on upper for memory 0. -/
def prepare_ms_addr (m : MemRefVal) (offset : Nat) (access_size : Nat)
    (memory : Nat) : MsAddrCheck :=
  let has_metadata := decide (m.attr &&& 0x20 ≠ 0)
  let addr_base := if offset ≠ 0 then (m.addr + offset) % 2 ^ 32 else m.addr
  let addr_upper := (addr_base + access_size) % 2 ^ 32
  let upper := (m.base + m.size) % 2 ^ 32
  let cmp_upper_trap := decide (addr_upper > upper)
  let cmp_base_trap := decide (m.base > addr_base)
  let may_trap := cmp_upper_trap || cmp_base_trap
  let is_trap := has_metadata && may_trap
  { has_metadata := has_metadata,
    addr_base := addr_base,
    addr_upper := addr_upper,
    upper := upper,
    trap := is_trap,
    emitted := [Inst.trapnz is_trap TrapCode.HeapOutOfBounds] ++
      (if memory = 0 then [Inst.boundsCheck upper] else []) }

/-- Outcome of running the straight-line IR emitted for MemrefNarrow on
concrete lane values: either a trap or the pushed memref. -/
inductive NarrowResult where
  | trap (code : TrapCode)
  | ok (m : MemRefVal)
deriving DecidableEq, Repr

/-- Embedding of the MemrefNarrow arm of translate_operator, evaluated on
concrete lane values: the two trapping unsigned adds for narrow_upper and
upper, the conditional HeapOutOfBounds trap when metadata is present and
narrow_upper exceeds upper, the select of the new size, and the lane
updates (lane 1 narrow_base, lane 2 the selected size, lane 3 attr with
the sub-object bit). -/
def translate_memref_narrow (narrow_size : Nat) (narrow_base : Nat)
    (m : MemRefVal) : NarrowResult :=
  let has_metadata := decide (m.attr &&& 0x20 ≠ 0)
  if 2 ^ 32 ≤ narrow_base + narrow_size then .trap .IntegerOverflow
  else
    let narrow_upper := narrow_base + narrow_size
    if 2 ^ 32 ≤ m.base + m.size then .trap .IntegerOverflow
    else
      let upper := m.base + m.size
      if has_metadata && decide (narrow_upper > upper) then
        .trap .HeapOutOfBounds
      else
        let new_size := if has_metadata then narrow_size else 0
        .ok { addr := m.addr, base := narrow_base, size := new_size,
              attr := m.attr ||| 0x04 }

/-- Embedding of the metadata packing of the MemrefMSStore arm: shift the
attribute lane left by 24 within 32 bits, or it into the size lane, then
extend to 64 bits, shift the base lane left by 32 and or it in. -/
def pack_metadata_msstore (base size attr : Nat) : Nat :=
  let attr_sh := (attr <<< 24) % 2 ^ 32
  let size32 := size ||| attr_sh
  let new_base := (base <<< 32) % 2 ^ 64
  size32 ||| new_base

/-- Embedding of the metadata packing of the MemrefAlloc arm: extend size
to 64 bits, or in the base shifted left by 32, then or in the attribute
immediate shifted left by 24 in 64-bit arithmetic. -/
def pack_metadata_alloc (base size attr : Nat) : Nat :=
  let new_base := (base <<< 32) % 2 ^ 64
  let metadata := size ||| new_base
  metadata ||| ((attr <<< 24) % 2 ^ 64)

/-- Embedding of the size decomposition of the vector case of
translate_msload: reduce the metadata word to 32 bits and mask the low
24 bits. -/
def msload_unpack_size (metadata : Nat) : Nat :=
  (metadata % 2 ^ 32) &&& 0x00ffffff

/-- Embedding of the attribute decomposition of the vector case of
translate_msload: reduce to 32 bits, mask bits 24 to 31 and shift right
by 24. -/
def msload_unpack_attr (metadata : Nat) : Nat :=
  ((metadata % 2 ^ 32) &&& 0xff000000) >>> 24

/-- Embedding of the base decomposition of the vector case of
translate_msload: shift the metadata word right by 32 and reduce to 32
bits. -/
def msload_unpack_base (metadata : Nat) : Nat :=
  (metadata >>> 32) % 2 ^ 32

/-- Embedding of align_atomic_addr: for an access of more than one byte,
fold the offset into the address (wrapping), test the low bits of the
effective address against the access size and trap with HeapMisaligned
when they are non-zero; a one-byte access emits nothing. -/
def align_atomic_addr (offset : Nat) (loaded_bytes : Nat) (addr : Nat) :
    List Inst :=
  if 1 < loaded_bytes then
    let effective_addr := if offset = 0 then addr else (addr + offset) % 2 ^ 32
    let misalignment := effective_addr &&& (loaded_bytes - 1)
    let f := decide (misalignment ≠ 0)
    [Inst.trapnz f TrapCode.HeapMisaligned]
  else []

/-- Embedding of prepare_atomic_addr: emit the alignment check of
align_atomic_addr first, then delegate to prepare_addr.  The bounds check
performed by prepare_addr goes through the bounds_checks module, which is
not among the translated sources; modelled from the spec as a single
bounds-check marker on the index. -/
def prepare_atomic_addr (offset : Nat) (loaded_bytes : Nat) (addr : Nat) :
    List Inst :=
  align_atomic_addr offset loaded_bytes addr ++ [Inst.boundsCheck addr]

/-- Claim-side predicate: the frame is an If whose head was reachable and
whose consequent reachability was never recorded. -/
def if_head_reachable_no_consequent : ControlStackFrame → Bool
  | .If _ _ _ _ _ _ h none => h
  | _ => false

/-- Claim-side predicate: the frame is an If whose head was reachable and
whose consequent was recorded as ending reachable. -/
def if_head_reachable_consequent_true : ControlStackFrame → Bool
  | .If _ _ _ _ _ _ h (some c) => h && c
  | _ => false

theorem and_two_pow_ne_zero_iff (x i : Nat) :
    (x &&& 2 ^ i ≠ 0) ↔ x.testBit i = true := by
  rw [Nat.and_two_pow]
  cases h : x.testBit i <;> simp

theorem lor_shiftLeft_eq_add (x z n : Nat) (hx : x < 2 ^ n) :
    x ||| z <<< n = 2 ^ n * z + x := by
  rw [Nat.shiftLeft_eq, Nat.mul_comm z (2 ^ n), Nat.or_comm,
    ← Nat.mul_add_lt_is_or hx]

theorem mem_zip_map {α β : Type} (f : α → β) (l : List α) :
    ∀ p ∈ l.zip (l.map f), p.2 = f p.1 := by
  induction l with
  | nil => simp
  | cons x xs ih =>
    intro p hp
    simp only [List.map_cons, List.zip_cons_cons, List.mem_cons] at hp
    rcases hp with h | h
    · subst h; rfl
    · exact ih p h

theorem canonicalise_of_all_canonical (l : List Value)
    (h : l.any (fun v => is_non_canonical_v128 v.ty) = false) :
    canonicalise_v128_values l =
      { values := l, emitted := [], allocated := false } := by
  simp only [canonicalise_v128_values, h]
  rfl

theorem canonicalise_of_some_non_canonical (l : List Value)
    (h : l.any (fun v => is_non_canonical_v128 v.ty) = true) :
    canonicalise_v128_values l =
      { values := l.map (fun v =>
          if is_non_canonical_v128 v.ty then Value.bitcast IRType.I8X16 v else v),
        emitted := (l.filter (fun v => is_non_canonical_v128 v.ty)).map
          (fun v => Inst.bitcastTo IRType.I8X16 v),
        allocated := true } := by
  simp only [canonicalise_v128_values, h]
  rfl

theorem pack_metadata_msstore_eq_add (b s a : Nat) (hb : b < 2 ^ 32)
    (hs : s < 2 ^ 24) (ha : a < 2 ^ 8) :
    pack_metadata_msstore b s a = 2 ^ 32 * b + (2 ^ 24 * a + s) := by
  have h1 : (a <<< 24) % 2 ^ 32 = a <<< 24 := by
    apply Nat.mod_eq_of_lt
    rw [Nat.shiftLeft_eq]
    omega
  have h2 : (b <<< 32) % 2 ^ 64 = b <<< 32 := by
    apply Nat.mod_eq_of_lt
    rw [Nat.shiftLeft_eq]
    omega
  simp only [pack_metadata_msstore, h1, h2]
  rw [lor_shiftLeft_eq_add s a 24 hs, lor_shiftLeft_eq_add _ b 32 (by omega)]

theorem br_destination_set_branched (f : ControlStackFrame) :
    f.set_branched_to_exit.br_destination = f.br_destination := by
  cases f <;> rfl

theorem frame_dest_set_branched_at (cs : List ControlStackFrame) (d j : Nat) :
    frame_dest_at (set_branched_at cs d) j = frame_dest_at cs j := by
  unfold frame_dest_at frame_at set_branched_at
  rw [List.length_set]
  rw [List.getD_eq_getElem?_getD, List.getD_eq_getElem?_getD, List.getElem?_set]
  by_cases hij : cs.length - 1 - d = cs.length - 1 - j
  · rw [if_pos hij]
    by_cases hlt : cs.length - 1 - d < cs.length
    · rw [if_pos hlt]
      unfold frame_at
      rw [hij, List.getD_eq_getElem?_getD]
      cases hx : cs[cs.length - 1 - j]? with
      | none =>
        exfalso
        rw [← hij] at hx
        rw [List.getElem?_eq_none_iff] at hx
        omega
      | some f =>
        simp only [Option.getD_some]
        rw [br_destination_set_branched]
    · rw [if_neg hlt]
      have hx : cs[cs.length - 1 - j]? = none := by
        rw [List.getElem?_eq_none_iff]
        omega
      rw [hx]
  · rw [if_neg hij]

theorem mem_keys_of_lookup_eq_some {seq : List (Nat × Nat)} {k b : Nat}
    (h : seq.lookup k = some b) : k ∈ seq.map Prod.fst := by
  obtain ⟨l1, l2, hl, _⟩ := List.lookup_eq_some_iff.mp h
  subst hl
  simp

theorem not_mem_keys_of_lookup_eq_none {seq : List (Nat × Nat)} {k : Nat}
    (h : seq.lookup k = none) : k ∉ seq.map Prod.fst := by
  intro hmem
  obtain ⟨p, hp, hfst⟩ := List.mem_map.mp hmem
  have := (List.lookup_eq_none_iff.mp h) p hp
  simp only [bne_iff_ne] at this
  exact this hfst.symm

theorem alloc_trampolines_keys (inputs : List Nat) :
    ∀ (seq : List (Nat × Nat)) (next d : Nat),
      (d ∈ ((alloc_trampolines inputs seq next).1.map Prod.fst) ↔
        d ∈ seq.map Prod.fst ∨ d ∈ inputs) := by
  induction inputs with
  | nil => intro seq next d; simp [alloc_trampolines]
  | cons e rest ih =>
    intro seq next d
    unfold alloc_trampolines
    cases h : seq.lookup e with
    | some b =>
      rw [ih]
      have he := mem_keys_of_lookup_eq_some h
      simp only [List.mem_cons]
      constructor
      · rintro (hs | hr)
        · exact Or.inl hs
        · exact Or.inr (Or.inr hr)
      · rintro (hs | rfl | hr)
        · exact Or.inl hs
        · exact Or.inl he
        · exact Or.inr hr
    | none =>
      rw [ih]
      simp only [List.map_append, List.mem_append, List.mem_cons, List.mem_map,
        List.mem_singleton]
      constructor
      · rintro ((hs | hp) | hr)
        · exact Or.inl hs
        · obtain ⟨p, hp2, hfst⟩ := hp
          rcases hp2 with rfl | h0
          · exact Or.inr (Or.inl hfst.symm)
          · cases h0
        · exact Or.inr (Or.inr hr)
      · rintro (hs | rfl | hr)
        · exact Or.inl (Or.inl hs)
        · exact Or.inl (Or.inr ⟨(d, next), Or.inl rfl, rfl⟩)
        · exact Or.inr hr

theorem alloc_trampolines_keys_nodup (inputs : List Nat) :
    ∀ (seq : List (Nat × Nat)) (next : Nat),
      (seq.map Prod.fst).Nodup →
      ((alloc_trampolines inputs seq next).1.map Prod.fst).Nodup := by
  induction inputs with
  | nil => intro seq next h; simpa [alloc_trampolines] using h
  | cons e rest ih =>
    intro seq next h
    unfold alloc_trampolines
    cases hl : seq.lookup e with
    | some b => exact ih seq next h
    | none =>
      apply ih
      rw [List.map_append]
      rw [List.nodup_append]
      refine ⟨h, List.nodup_singleton _, ?_⟩
      intro x hx
      simp only [List.map_cons, List.map_nil, List.mem_singleton]
      intro hx2
      subst hx2
      exact (not_mem_keys_of_lookup_eq_none hl) hx

theorem br_table_zero_fold (targets : List Nat) (cs0 : List ControlStackFrame) :
    ∀ (cs : List ControlStackFrame) (acc : List Nat),
      (∀ j, frame_dest_at cs j = frame_dest_at cs0 j) →
      ((targets.foldl br_table_zero_step (cs, acc)).2 =
          acc ++ targets.map (frame_dest_at cs0))
      ∧ (∀ j, frame_dest_at (targets.foldl br_table_zero_step (cs, acc)).1 j =
          frame_dest_at cs0 j) := by
  induction targets with
  | nil => intro cs acc h; exact ⟨by simp, h⟩
  | cons d rest ih =>
    intro cs acc h
    have hstep : ∀ j, frame_dest_at (set_branched_at cs d) j = frame_dest_at cs0 j := by
      intro j
      rw [frame_dest_set_branched_at]
      exact h j
    have := ih (set_branched_at cs d) (acc ++ [frame_dest_at (set_branched_at cs d) d]) hstep
    simp only [List.foldl_cons, br_table_zero_step]
    refine ⟨?_, this.2⟩
    rw [this.1, hstep d]
    simp

theorem br_table_tramp_fold (seq : List (Nat × Nat)) (stack1 : List Value)
    (rc : Nat) (cs0 : List ControlStackFrame) :
    ∀ (cs : List ControlStackFrame) (acc : List (Nat × Nat × Inst)),
      (∀ j, frame_dest_at cs j = frame_dest_at cs0 j) →
      ((seq.foldl (br_table_tramp_step stack1 rc) (cs, acc)).2 =
          acc ++ seq.map (fun db => (db.1, db.2,
            canonicalise_then_jump (frame_dest_at cs0 db.1) (peekn stack1 rc))))
      ∧ (∀ j, frame_dest_at (seq.foldl (br_table_tramp_step stack1 rc) (cs, acc)).1 j =
          frame_dest_at cs0 j) := by
  induction seq with
  | nil => intro cs acc h; exact ⟨by simp, h⟩
  | cons db rest ih =>
    intro cs acc h
    have hstep : ∀ j, frame_dest_at (set_branched_at cs db.1) j = frame_dest_at cs0 j := by
      intro j
      rw [frame_dest_set_branched_at]
      exact h j
    have := ih (set_branched_at cs db.1)
      (acc ++ [(db.1, db.2, canonicalise_then_jump
        (frame_dest_at (set_branched_at cs db.1) db.1) (peekn stack1 rc))]) hstep
    simp only [List.foldl_cons, br_table_tramp_step]
    refine ⟨?_, this.2⟩
    rw [this.1, hstep db.1]
    simp

/-- C1: when End is translated while reachable is false, after the frame
is popped, reachable is set back to true if and only if some branch
targeted the exit block of the frame, or the frame is an If whose head
was reachable and whose consequent reachability was never recorded, or an
If whose head was reachable and whose consequent was recorded as ending
reachable; for Loop and Block frames with no branch to the exit,
reachable stays false.  When re-enabled, the parameters of the following
block are pushed onto the value stack. -/
theorem C1_unreachable_end_reachability (rest : List ControlStackFrame)
    (frame : ControlStackFrame) (stack : List Value) (bp : Nat → List Value) :
    ((translate_unreachable_end ⟨stack, rest ++ [frame], false⟩ bp).state.reachable = true ↔
      (frame.exit_is_branched_to || if_head_reachable_no_consequent frame
        || if_head_reachable_consequent_true frame) = true)
    ∧ ((translate_unreachable_end ⟨stack, rest ++ [frame], false⟩ bp).state.reachable = true →
      (translate_unreachable_end ⟨stack, rest ++ [frame], false⟩ bp).state.stack =
        truncate_value_stack_to_original_size frame stack ++ bp frame.following_code) := by
  constructor
  · simp only [translate_unreachable_end, List.getLast?_concat, Option.getD_some,
      List.dropLast_concat]
    cases frame with
    | Block f p r s b =>
      by_cases hb : b <;>
        simp [ControlStackFrame.exit_is_branched_to, if_head_reachable_no_consequent,
          if_head_reachable_consequent_true, hb]
    | Loop h f p r s b =>
      by_cases hb : b <;>
        simp [ControlStackFrame.exit_is_branched_to, if_head_reachable_no_consequent,
          if_head_reachable_consequent_true, hb]
    | If f e p r s b hr c =>
      rcases c with _ | c
      · by_cases hb : b <;> by_cases hh : hr <;>
          simp [ControlStackFrame.exit_is_branched_to, if_head_reachable_no_consequent,
            if_head_reachable_consequent_true, hb, hh]
      · cases c <;> by_cases hb : b <;> by_cases hh : hr <;>
          simp [ControlStackFrame.exit_is_branched_to, if_head_reachable_no_consequent,
            if_head_reachable_consequent_true, hb, hh]
  · simp only [translate_unreachable_end, List.getLast?_concat, Option.getD_some,
      List.dropLast_concat]
    by_cases h : (frame.exit_is_branched_to || (match frame with
      | .Loop _ _ _ _ _ _ => false
      | .If _ _ _ _ _ _ head_is_reachable none => head_is_reachable
      | .If _ _ _ _ _ _ head_is_reachable (some c) => head_is_reachable && c
      | _ => false)) = true
    · rw [if_pos h]
      intro _
      rfl
    · rw [if_neg h]
      intro hr
      cases hr

/-- C2: prepare_ms_addr computes addr_base as the wrapping sum of the
address lane and the static offset (folded only when the offset is
non-zero), addr_upper as the wrapping sum of addr_base and the access
size, and upper as the wrapping sum of the base and size lanes, and its
emitted HeapOutOfBounds trap fires exactly when bit 0x20 of the attr lane
is set and addr_upper exceeds upper or base exceeds addr_base, both
comparisons unsigned. -/
theorem C2_prepare_ms_addr_trap_condition (m : MemRefVal)
    (offset access_size memory : Nat) :
    ((prepare_ms_addr m offset access_size memory).addr_base =
        (if offset ≠ 0 then (m.addr + offset) % 2 ^ 32 else m.addr))
    ∧ ((prepare_ms_addr m offset access_size memory).addr_upper =
        ((prepare_ms_addr m offset access_size memory).addr_base + access_size) % 2 ^ 32)
    ∧ ((prepare_ms_addr m offset access_size memory).upper =
        (m.base + m.size) % 2 ^ 32)
    ∧ ((prepare_ms_addr m offset access_size memory).trap = true ↔
        (m.attr.testBit 5 = true ∧
          ((prepare_ms_addr m offset access_size memory).addr_upper >
              (prepare_ms_addr m offset access_size memory).upper ∨
            m.base > (prepare_ms_addr m offset access_size memory).addr_base)))
    ∧ ((prepare_ms_addr m offset access_size memory).emitted.head? =
        some (Inst.trapnz (prepare_ms_addr m offset access_size memory).trap
          TrapCode.HeapOutOfBounds)) := by
  refine ⟨rfl, rfl, rfl, ?_, rfl⟩
  have h5 := and_two_pow_ne_zero_iff m.attr 5
  norm_num at h5
  simp [prepare_ms_addr, h5, and_assoc, Nat.lt_iff_add_one_le]

/-- C3: translating MemrefNarrow computes narrow_upper and upper with
trapping unsigned adds (IntegerOverflow), traps with HeapOutOfBounds
exactly when the memref has metadata (bit 0x20 of attr) and narrow_upper
exceeds upper, and otherwise pushes a memref whose lane 1 is narrow_base,
lane 2 is narrow_size when metadata is present and 0 otherwise, lane 3 is
attr with the sub-object bit 0x04 set, and lane 0 unchanged. -/
theorem C3_memref_narrow_spec (narrow_size narrow_base : Nat) (m : MemRefVal) :
    translate_memref_narrow narrow_size narrow_base m =
      (if 2 ^ 32 ≤ narrow_base + narrow_size ∨ 2 ^ 32 ≤ m.base + m.size then
        NarrowResult.trap TrapCode.IntegerOverflow
      else if m.attr.testBit 5 = true ∧ m.base + m.size < narrow_base + narrow_size then
        NarrowResult.trap TrapCode.HeapOutOfBounds
      else
        NarrowResult.ok
          { addr := m.addr, base := narrow_base,
            size := if m.attr.testBit 5 = true then narrow_size else 0,
            attr := m.attr ||| 0x04 }) := by
  have h5 := and_two_pow_ne_zero_iff m.attr 5
  norm_num at h5
  by_cases h1 : (4294967296 : Nat) ≤ narrow_base + narrow_size <;>
  by_cases h2 : (4294967296 : Nat) ≤ m.base + m.size <;>
  by_cases hb : m.attr.testBit 5 = true <;>
  by_cases h3 : m.base + m.size < narrow_base + narrow_size <;>
    simp [translate_memref_narrow, h5, h1, h2, hb, h3]

/-- C4: the shadow-metadata word round-trips: packing base, size and attr
as done by the MemrefMSStore arm (and equivalently by the MemrefAlloc
arm) and decomposing as done by the vector case of translate_msload
recovers the original base, size and attr, for every 32-bit base, size
below 2 to the 24 and attr below 2 to the 8. -/
theorem C4_metadata_roundtrip (b s a : Nat) (hb : b < 2 ^ 32)
    (hs : s < 2 ^ 24) (ha : a < 2 ^ 8) :
    msload_unpack_size (pack_metadata_msstore b s a) = s ∧
    msload_unpack_attr (pack_metadata_msstore b s a) = a ∧
    msload_unpack_base (pack_metadata_msstore b s a) = b ∧
    pack_metadata_alloc b s a = pack_metadata_msstore b s a := by
  have hpack := pack_metadata_msstore_eq_add b s a hb hs ha
  have hmod32 : (2 ^ 32 * b + (2 ^ 24 * a + s)) % 2 ^ 32 = 2 ^ 24 * a + s := by
    omega
  refine ⟨?_, ?_, ?_, ?_⟩
  · unfold msload_unpack_size
    rw [hpack, hmod32, show (0x00ffffff : Nat) = 2 ^ 24 - 1 by norm_num,
      Nat.and_pow_two_sub_one_eq_mod]
    omega
  · unfold msload_unpack_attr
    rw [hpack, hmod32, show (0xff000000 : Nat) = 2 ^ 24 * (2 ^ 8 - 1) by norm_num]
    apply Nat.eq_of_testBit_eq
    intro i
    simp only [Nat.testBit_shiftRight, Nat.testBit_and,
      Nat.testBit_mul_pow_two_add _ hs, Nat.testBit_mul_pow_two,
      Nat.testBit_two_pow_sub_one]
    simp only [Nat.add_sub_cancel_left, Nat.lt_irrefl]
    have h24 : ¬(24 + i < 24) := by omega
    have hge : 24 ≤ 24 + i := by omega
    simp only [h24, hge, if_false, decide_True, Bool.true_and, ite_false]
    by_cases hi : i < 8
    · simp [hi]
    · have hlt : a < 2 ^ i :=
        Nat.lt_of_lt_of_le ha (Nat.pow_le_pow_right (by norm_num) (by omega))
      simp [hi, Nat.testBit_lt_two_pow hlt]
  · unfold msload_unpack_base
    rw [hpack, Nat.shiftRight_eq_div_pow]
    omega
  · have h2 : (b <<< 32) % 2 ^ 64 = b <<< 32 := by
      apply Nat.mod_eq_of_lt
      rw [Nat.shiftLeft_eq]
      omega
    have h3 : (a <<< 24) % 2 ^ 64 = a <<< 24 := by
      apply Nat.mod_eq_of_lt
      rw [Nat.shiftLeft_eq]
      omega
    simp only [pack_metadata_alloc, h2, h3]
    rw [hpack]
    rw [lor_shiftLeft_eq_add s b 32 (by omega)]
    rw [Nat.shiftLeft_eq a 24, Nat.mul_comm a (2 ^ 24)]
    rw [Nat.mul_add_lt_is_or (show s < 2 ^ 32 by omega) b]
    rw [Nat.or_assoc, Nat.or_comm s (2 ^ 24 * a)]
    rw [← Nat.mul_add_lt_is_or hs a]
    rw [← Nat.mul_add_lt_is_or (show 2 ^ 24 * a + s < 2 ^ 32 by omega) b]

/-- C4 witness: the round-trip evaluated at base 3000000000, size 123456
and attr 164. -/
theorem C4_metadata_roundtrip_witness :
    msload_unpack_size (pack_metadata_msstore 3000000000 123456 164) = 123456 ∧
    msload_unpack_attr (pack_metadata_msstore 3000000000 123456 164) = 164 ∧
    msload_unpack_base (pack_metadata_msstore 3000000000 123456 164) = 3000000000 ∧
    pack_metadata_alloc 3000000000 123456 164 = pack_metadata_msstore 3000000000 123456 164 :=
  C4_metadata_roundtrip 3000000000 123456 164 (by norm_num) (by norm_num) (by norm_num)

/-- C5: the br_table instruction is always emitted with no jump
arguments; when the jump-argument count taken from the frame at the
minimum depth is zero it targets the branch destination blocks directly
and no trampoline is created, and otherwise exactly one trampoline block
exists per distinct target depth (deduplicated, including the default),
the br_table entries and default all point at trampoline blocks, and each
trampoline emits a single canonicalised jump carrying the argument values
to the true destination; afterwards the arguments are popped and the code
is unreachable. -/
theorem C5_br_table_spec (targets : List Nat) (default_depth : Nat)
    (st : FuncTranslationState) (first_block : Nat) :
    (∃ v b es, (translate_br_table targets default_depth st first_block).br_table =
        Inst.brTable v b es [])
    ∧ (translate_br_table targets default_depth st first_block).state.reachable = false
    ∧ (translate_br_table targets default_depth st first_block).state.stack =
        popn st.stack.dropLast (br_table_args_count targets default_depth st)
    ∧ (br_table_args_count targets default_depth st = 0 →
        (translate_br_table targets default_depth st first_block).trampolines = []
        ∧ (translate_br_table targets default_depth st first_block).br_table =
            Inst.brTable ((st.stack.getLast?).getD default)
              (frame_dest_at st.control_stack default_depth)
              (targets.map (frame_dest_at st.control_stack)) [])
    ∧ (br_table_args_count targets default_depth st ≠ 0 →
        (((translate_br_table targets default_depth st first_block).trampolines.map
            (fun t => t.1)).Nodup
        ∧ (∀ d, d ∈ (translate_br_table targets default_depth st first_block).trampolines.map
              (fun t => t.1) ↔ (d ∈ targets ∨ d = default_depth))
        ∧ (∀ t ∈ (translate_br_table targets default_depth st first_block).trampolines,
            t.2.2 = canonicalise_then_jump (frame_dest_at st.control_stack t.1)
              (peekn st.stack.dropLast (br_table_args_count targets default_depth st)))
        ∧ (∀ e ∈ (targets.map (fun d =>
              (((alloc_trampolines (targets ++ [default_depth]) [] first_block).1.lookup d).getD 0))),
            ∃ t ∈ (translate_br_table targets default_depth st first_block).trampolines,
              t.2.1 = e)
        ∧ (∃ t ∈ (translate_br_table targets default_depth st first_block).trampolines,
            t.2.1 = ((alloc_trampolines (targets ++ [default_depth]) [] first_block).1.lookup
              default_depth).getD 0)
        ∧ (translate_br_table targets default_depth st first_block).br_table =
            Inst.brTable ((st.stack.getLast?).getD default)
              (((alloc_trampolines (targets ++ [default_depth]) [] first_block).1.lookup
                default_depth).getD 0)
              (targets.map (fun d =>
                (((alloc_trampolines (targets ++ [default_depth]) [] first_block).1.lookup d).getD 0)))
              [])) := by
  by_cases hc : br_table_args_count targets default_depth st = 0
  · have hz := br_table_zero_fold targets st.control_stack st.control_stack []
      (fun _ => rfl)
    have hT : translate_br_table targets default_depth st first_block =
        { state :=
            { stack := st.stack.dropLast,
              control_stack := set_branched_at
                (targets.foldl br_table_zero_step (st.control_stack, [])).1 default_depth,
              reachable := false },
          br_table := Inst.brTable ((st.stack.getLast?).getD default)
            (frame_dest_at (set_branched_at
              (targets.foldl br_table_zero_step (st.control_stack, [])).1 default_depth)
              default_depth)
            (targets.foldl br_table_zero_step (st.control_stack, [])).2 [],
          trampolines := [] } := by
      simp only [translate_br_table, hc, if_true, if_pos]
    rw [hT]
    refine ⟨⟨_, _, _, rfl⟩, rfl, ?_, ?_, ?_⟩
    · simp [hc, popn]
    · intro _
      refine ⟨rfl, ?_⟩
      rw [frame_dest_set_branched_at, hz.2 default_depth, hz.1]
      simp
    · intro hne
      cases hne hc
  · have hseq := br_table_tramp_fold
      (alloc_trampolines (targets ++ [default_depth]) [] first_block).1
      st.stack.dropLast (br_table_args_count targets default_depth st)
      st.control_stack st.control_stack [] (fun _ => rfl)
    have hT : translate_br_table targets default_depth st first_block =
        { state :=
            { stack := popn st.stack.dropLast (br_table_args_count targets default_depth st),
              control_stack := ((alloc_trampolines (targets ++ [default_depth]) [] first_block).1.foldl
                (br_table_tramp_step st.stack.dropLast (br_table_args_count targets default_depth st))
                (st.control_stack, [])).1,
              reachable := false },
          br_table := Inst.brTable ((st.stack.getLast?).getD default)
            (((alloc_trampolines (targets ++ [default_depth]) [] first_block).1.lookup
              default_depth).getD 0)
            (targets.map (fun d =>
              (((alloc_trampolines (targets ++ [default_depth]) [] first_block).1.lookup d).getD 0)))
            [],
          trampolines := ((alloc_trampolines (targets ++ [default_depth]) [] first_block).1.foldl
            (br_table_tramp_step st.stack.dropLast (br_table_args_count targets default_depth st))
            (st.control_stack, [])).2 } := by
      simp only [translate_br_table, hc, if_false, if_neg]
    rw [hT]
    have htramps : ((alloc_trampolines (targets ++ [default_depth]) [] first_block).1.foldl
        (br_table_tramp_step st.stack.dropLast (br_table_args_count targets default_depth st))
        (st.control_stack, [])).2 =
      (alloc_trampolines (targets ++ [default_depth]) [] first_block).1.map
        (fun db => (db.1, db.2, canonicalise_then_jump (frame_dest_at st.control_stack db.1)
          (peekn st.stack.dropLast (br_table_args_count targets default_depth st)))) := by
      rw [hseq.1]
      simp
    refine ⟨⟨_, _, _, rfl⟩, rfl, rfl, fun h => (hc h).elim, fun _ => ?_⟩
    have hkeys : ∀ d, d ∈ ((alloc_trampolines (targets ++ [default_depth]) [] first_block).1.map
        Prod.fst) ↔ (d ∈ targets ∨ d = default_depth) := by
      intro d
      rw [alloc_trampolines_keys]
      simp
    refine ⟨?_, ?_, ?_, ?_, ?_, rfl⟩
    · rw [htramps]
      rw [List.map_map]
      have hcomp : ((fun t => t.1) ∘ (fun (db : Nat × Nat) => (db.1, db.2,
          canonicalise_then_jump (frame_dest_at st.control_stack db.1)
            (peekn st.stack.dropLast (br_table_args_count targets default_depth st)))))
          = Prod.fst := by
        funext db
        rfl
      rw [hcomp]
      exact alloc_trampolines_keys_nodup _ [] first_block (by simp)
    · intro d
      rw [htramps, List.map_map]
      have hcomp : ((fun t => t.1) ∘ (fun (db : Nat × Nat) => (db.1, db.2,
          canonicalise_then_jump (frame_dest_at st.control_stack db.1)
            (peekn st.stack.dropLast (br_table_args_count targets default_depth st)))))
          = Prod.fst := by
        funext db
        rfl
      rw [hcomp]
      exact hkeys d
    · intro t ht
      rw [htramps] at ht
      obtain ⟨db, _, hdb⟩ := List.mem_map.mp ht
      rw [← hdb]
    · intro e he
      obtain ⟨d, hd, hde⟩ := List.mem_map.mp he
      have hdk : d ∈ ((alloc_trampolines (targets ++ [default_depth]) [] first_block).1.map
          Prod.fst) := (hkeys d).mpr (Or.inl hd)
      obtain ⟨p, hp, hpf⟩ := List.mem_map.mp hdk
      have hlook : ((alloc_trampolines (targets ++ [default_depth]) [] first_block).1.lookup d).isSome := by
        rw [List.lookup_isSome_iff]
        exact ⟨p, hp, by simp [hpf]⟩
      obtain ⟨b, hb⟩ := Option.isSome_iff_exists.mp hlook
      obtain ⟨l1, l2, hl, _⟩ := List.lookup_eq_some_iff.mp hb
      have hmem : (d, b) ∈ (alloc_trampolines (targets ++ [default_depth]) [] first_block).1 := by
        rw [hl]
        simp
      refine ⟨(d, b, canonicalise_then_jump (frame_dest_at st.control_stack d)
        (peekn st.stack.dropLast (br_table_args_count targets default_depth st))), ?_, ?_⟩
      · rw [htramps]
        exact List.mem_map.mpr ⟨(d, b), hmem, rfl⟩
      · simp only
        rw [← hde, hb]
        rfl
    · have hdk : default_depth ∈ ((alloc_trampolines (targets ++ [default_depth]) [] first_block).1.map
          Prod.fst) := (hkeys default_depth).mpr (Or.inr rfl)
      obtain ⟨p, hp, hpf⟩ := List.mem_map.mp hdk
      have hlook : ((alloc_trampolines (targets ++ [default_depth]) [] first_block).1.lookup
          default_depth).isSome := by
        rw [List.lookup_isSome_iff]
        exact ⟨p, hp, by simp [hpf]⟩
      obtain ⟨b, hb⟩ := Option.isSome_iff_exists.mp hlook
      obtain ⟨l1, l2, hl, _⟩ := List.lookup_eq_some_iff.mp hb
      have hmem : (default_depth, b) ∈ (alloc_trampolines (targets ++ [default_depth]) [] first_block).1 := by
        rw [hl]
        simp
      refine ⟨(default_depth, b, canonicalise_then_jump (frame_dest_at st.control_stack default_depth)
        (peekn st.stack.dropLast (br_table_args_count targets default_depth st))), ?_, ?_⟩
      · rw [htramps]
        exact List.mem_map.mpr ⟨(default_depth, b), hmem, rfl⟩
      · simp only
        rw [hb]
        rfl

/-- C6: translating Br in reachable code marks the frame at index
len - 1 - depth as branched-to-exit, chooses the argument count from the
parameter arity when that frame is a Loop and from the result arity
otherwise, emits one canonicalised jump to the loop header for a Loop and
to the following block otherwise carrying the top values, pops exactly
those values, and clears reachability. -/
theorem C6_translate_br_spec (relative_depth : Nat) (st : FuncTranslationState)
    (hd : relative_depth < st.control_stack.length) :
    (translate_br relative_depth st).state.reachable = false
    ∧ (translate_br relative_depth st).state.stack =
        popn st.stack (if (frame_at st.control_stack relative_depth).is_loop
          then (frame_at st.control_stack relative_depth).num_param_values
          else (frame_at st.control_stack relative_depth).num_return_values)
    ∧ (translate_br relative_depth st).state.control_stack =
        st.control_stack.set (st.control_stack.length - 1 - relative_depth)
          (frame_at st.control_stack relative_depth).set_branched_to_exit
    ∧ (∀ h f np nr os b,
        frame_at st.control_stack relative_depth = .Loop h f np nr os b →
        (translate_br relative_depth st).emitted =
          canonicalise_then_jump h (peekn st.stack np))
    ∧ ((frame_at st.control_stack relative_depth).is_loop = false →
        (translate_br relative_depth st).emitted =
          canonicalise_then_jump (frame_at st.control_stack relative_depth).following_code
            (peekn st.stack (frame_at st.control_stack relative_depth).num_return_values)) := by
  refine ⟨rfl, rfl, rfl, ?_, ?_⟩
  · intro h f np nr os b heq
    simp only [translate_br, heq, ControlStackFrame.is_loop,
      ControlStackFrame.num_param_values, ControlStackFrame.br_destination, if_true]
  · intro hnl
    simp only [translate_br, hnl, if_false]
    cases hfr : frame_at st.control_stack relative_depth with
    | Loop h f np nr os b =>
      rw [hfr] at hnl
      cases hnl
    | Block f p r s b => rfl
    | If f e p r s b hr c => rfl

/-- C6 witness: a one-frame control stack with a Block frame of result
arity one, evaluated at depth zero. -/
theorem C6_translate_br_spec_witness :
    (translate_br 0
      ⟨[Value.val 0 IRType.I32],
        [ControlStackFrame.Block 7 0 1 0 false], true⟩).state.reachable = false
    ∧ (translate_br 0
      ⟨[Value.val 0 IRType.I32],
        [ControlStackFrame.Block 7 0 1 0 false], true⟩).emitted =
      Inst.jump 7 [Value.val 0 IRType.I32] :=
  ⟨(C6_translate_br_spec 0
      ⟨[Value.val 0 IRType.I32], [ControlStackFrame.Block 7 0 1 0 false], true⟩
      (by decide)).1,
    by
      have h := (C6_translate_br_spec 0
        ⟨[Value.val 0 IRType.I32], [ControlStackFrame.Block 7 0 1 0 false], true⟩
        (by decide)).2.2.2.2 (by decide)
      rw [h]
      decide⟩

/-- C7: prepare_atomic_addr emits the alignment check before the bounds
check: for an access of more than one byte it traps with HeapMisaligned
exactly when the effective address addr plus offset has a non-zero
residue against access_size, and for a one-byte access no alignment trap
is emitted. -/
theorem C7_prepare_atomic_addr_spec (offset loaded_bytes addr : Nat)
    (haddr : addr < 2 ^ 32) :
    (1 < loaded_bytes →
      prepare_atomic_addr offset loaded_bytes addr =
        [Inst.trapnz (decide (((addr + offset) % 2 ^ 32) &&& (loaded_bytes - 1) ≠ 0))
            TrapCode.HeapMisaligned,
          Inst.boundsCheck addr])
    ∧ (loaded_bytes = 1 →
      prepare_atomic_addr offset loaded_bytes addr = [Inst.boundsCheck addr]) := by
  norm_num at haddr
  constructor
  · intro h
    by_cases ho : offset = 0
    · simp [prepare_atomic_addr, align_atomic_addr, h, ho, Nat.mod_eq_of_lt haddr]
    · simp [prepare_atomic_addr, align_atomic_addr, h, ho]
  · intro h
    simp [prepare_atomic_addr, align_atomic_addr, h]

/-- C7 witness: a two-byte atomic access at address 0 with offset 1 traps
on misalignment before the bounds check, and a one-byte access emits no
alignment trap. -/
theorem C7_prepare_atomic_addr_spec_witness :
    prepare_atomic_addr 1 2 0 =
      [Inst.trapnz true TrapCode.HeapMisaligned, Inst.boundsCheck 0]
    ∧ prepare_atomic_addr 1 1 0 = [Inst.boundsCheck 0] :=
  ⟨(C7_prepare_atomic_addr_spec 1 2 0 (by norm_num)).1 (by norm_num),
    (C7_prepare_atomic_addr_spec 1 1 0 (by norm_num)).2 rfl⟩

/-- C8: canonicalise_v128_values returns the input slice itself with no
bitcasts and no allocation whenever no value has a non-canonical 128-bit
vector type, and otherwise returns a slice of equal length in which
exactly the non-canonical values are replaced by bitcasts to I8X16; in
particular it is idempotent, since its output is always canonical. -/
theorem C8_canonicalise_v128_spec (values : List Value) :
    ((∀ v ∈ values, is_non_canonical_v128 v.ty = false) →
        (canonicalise_v128_values values).values = values ∧
        (canonicalise_v128_values values).emitted = [] ∧
        (canonicalise_v128_values values).allocated = false)
    ∧ (canonicalise_v128_values values).values.length = values.length
    ∧ (∀ p ∈ values.zip (canonicalise_v128_values values).values,
        (is_non_canonical_v128 p.1.ty = true →
           p.2 = Value.bitcast IRType.I8X16 p.1) ∧
        (is_non_canonical_v128 p.1.ty = false → p.2 = p.1))
    ∧ canonicalise_v128_values (canonicalise_v128_values values).values =
        { values := (canonicalise_v128_values values).values, emitted := [],
          allocated := false } := by
  by_cases h : values.any (fun v => is_non_canonical_v128 v.ty) = true
  · have r_eq := canonicalise_of_some_non_canonical values h
    have hall : ∀ v ∈ (canonicalise_v128_values values).values,
        is_non_canonical_v128 v.ty = false := by
      rw [r_eq]
      intro v hv
      simp only [List.mem_map] at hv
      obtain ⟨w, _, hw⟩ := hv
      subst hw
      by_cases hnc : is_non_canonical_v128 w.ty = true
      · rw [if_pos hnc]
        rfl
      · rw [if_neg hnc]
        simpa using hnc
    refine ⟨?_, ?_, ?_, ?_⟩
    · intro hnone
      obtain ⟨v, hv, hnc⟩ := List.any_eq_true.mp h
      have hv2 := hnone v hv
      simp only [hv2] at hnc
      cases hnc
    · rw [r_eq]
      simp
    · intro p hp
      rw [r_eq] at hp
      have hmap := mem_zip_map
        (fun v => if is_non_canonical_v128 v.ty then Value.bitcast IRType.I8X16 v else v)
        values p hp
      constructor
      · intro hnc
        rw [hmap]
        simp only
        rw [if_pos hnc]
      · intro hnc
        rw [hmap]
        simp only
        rw [if_neg (by simp [hnc])]
    · exact canonicalise_of_all_canonical _
        (List.any_eq_false.mpr (by intro v hv; simp [hall v hv]))
  · have hfalse : values.any (fun v => is_non_canonical_v128 v.ty) = false := by
      simp only [Bool.not_eq_true] at h
      exact h
    have r_eq := canonicalise_of_all_canonical values hfalse
    refine ⟨fun _ => by rw [r_eq]; exact ⟨rfl, rfl, rfl⟩, by rw [r_eq], ?_, ?_⟩
    · intro p hp
      rw [r_eq] at hp
      have hzip : p ∈ values.zip (values.map id) := by simpa using hp
      have hid := mem_zip_map id values p hzip
      constructor
      · intro hnc
        have hmem := (List.of_mem_zip hp).1
        have hf := (List.any_eq_false.mp hfalse) p.1 hmem
        simp only [decide_eq_true_eq] at hf
        rw [hnc] at hf
        cases hf rfl
      · intro _
        simpa using hid
    · rw [r_eq]
      exact canonicalise_of_all_canonical values hfalse

/-- C9: translating MemrefConst in reachable code emits a trap
instruction (UnreachableCodeReached) but leaves the translation state
unchanged, so reachability, the value stack and the control stack are
untouched, whereas the Unreachable arm clears reachability. -/
theorem C9_memref_const_spec (st : FuncTranslationState) :
    (translate_memref_const st).state = st
    ∧ (translate_memref_const st).emitted =
        [Inst.trap TrapCode.UnreachableCodeReached]
    ∧ (translate_unreachable_op st).state.reachable = false
    ∧ (translate_unreachable_op st).emitted =
        [Inst.trap TrapCode.UnreachableCodeReached] :=
  ⟨rfl, rfl, rfl, rfl⟩

/-- C10: on the unreachable path, End always truncates the value stack to
the original stack height of the popped frame and extends it with the
parameters of the following block exactly when reachability is
restored. -/
theorem C10_unreachable_end_stack (rest : List ControlStackFrame)
    (frame : ControlStackFrame) (stack : List Value) (bp : Nat → List Value) :
    (translate_unreachable_end ⟨stack, rest ++ [frame], false⟩ bp).state.stack =
      stack.take frame.original_stack_size ++
        (if (translate_unreachable_end ⟨stack, rest ++ [frame], false⟩ bp).state.reachable = true
          then bp frame.following_code else []) := by
  simp only [translate_unreachable_end, List.getLast?_concat, Option.getD_some,
    List.dropLast_concat]
  by_cases h : (frame.exit_is_branched_to || (match frame with
    | .Loop _ _ _ _ _ _ => false
    | .If _ _ _ _ _ _ head_is_reachable none => head_is_reachable
    | .If _ _ _ _ _ _ head_is_reachable (some c) => head_is_reachable && c
    | _ => false)) = true
  · simp [h, truncate_value_stack_to_original_size]
  · simp [h, truncate_value_stack_to_original_size]
